import Mathlib

/-!
Shallow embedding of `dftimewolf/lib/collectors.py` (Timewolf artifact
collectors): the target resolver (`GrrArtifactCollector._GetClientId`), the
approval gate (`GrrArtifactCollector._GetClient` / `GrrHuntCollector.Collect`),
the flow polling loop (`GrrArtifactCollector.Collect`), the archive download
guard (`GrrArtifactCollector._DownloadFiles`), the hunt archive extraction
(`GrrHuntCollector.Collect`), and the orchestrator (`CollectArtifactsHelper`).

Python machine-level effects (filesystem, network, threads) are made explicit:
the filesystem is a list of existing paths, remote calls are parameters giving
their observed outcomes, and exceptions are the `Except` monad.
-/

namespace Collectors

/-- Python exceptions raised by the collectors module.
`resolutionError` is the `RuntimeError` of `_GetClientId`, `approvalError` the
`ValueError` of the approval branches, `flowExecutionError` the `RuntimeError`
of the flow polling loop (carrying the remote backtrace), `indexError` and
`typeError` the interpreter-level errors. -/
inductive PyErr where
  | indexError
  | typeError
  | resolutionError
  | approvalError
  | flowExecutionError (backtrace : String)
  deriving DecidableEq

/-- Python list indexing `l[i]`: raises `IndexError` when out of range. -/
def pyIndex (l : List α) (i : Nat) : Except PyErr α :=
  match l.get? i with
  | some x => .ok x
  | none => .error .indexError

/-- `os.path.join(a, b)` for a relative second component. -/
def pyJoin (a b : String) : String := a ++ "/" ++ b

/-- Python `s.lower()` (character-wise lowering). -/
def pyLower (s : String) : String := ⟨s.data.map Char.toLower⟩

/-- Python `s.split(sep)` for a one-character separator, on the character
list: `''.split('/') == ['']`, separators at the ends produce empty
fields. -/
def pySplitChars (sep : Char) : List Char → List (List Char)
  | [] => [[]]
  | c :: rest =>
      match pySplitChars sep rest with
      | [] => [[c]]
      | h :: t => if c == sep then [] :: h :: t else (c :: h) :: t

/-- Python `s.split(sep)` for a one-character separator. -/
def pySplit (s : String) (sep : Char) : List String :=
  (pySplitChars sep s.data).map List.asString

/-- Python `s.startswith(pre)`. -/
def pyStartsWith (s pre : String) : Bool := pre.data.isPrefixOf s.data

/-- Python `s.rstrip('/')`. -/
def pyRstripSlash (s : String) : String :=
  (s.data.reverse.dropWhile (fun c => c == '/')).reverse.asString

/-- `os.path.basename(s)`: the part after the last slash. -/
def pyBasename (s : String) : String := (pySplit s '/').getLastD ""

/-- Python substring test `needle in hay`. -/
def pyIn (needle hay : String) : Bool :=
  (List.range (hay.toList.length + 1)).any
    (fun i => needle.toList.isPrefixOf (hay.toList.drop i))

/-- Python `dict` assignment `d[k] = v`: overwrite in place when the key is
present, else append (insertion order is preserved, as in `dict`). -/
def dictInsert (d : List (String × α)) (k : String) (v : α) :
    List (String × α) :=
  if d.any (fun p => p.1 == k) then
    d.map (fun p => if p.1 == k then (k, v) else p)
  else d ++ [(k, v)]

/-- Python `d.update(items)` for a dict argument. -/
def pyDictUpdate (d items : List (String × α)) : List (String × α) :=
  items.foldl (fun d p => dictInsert d p.1 p.2) d

/-- Python `d.update(x)` where `x` may be `None`:
`dict.update(None)` raises `TypeError`. -/
def pyDictUpdateOpt (d : List (String × α)) :
    Option (List (String × α)) → Except PyErr (List (String × α))
  | none => .error .typeError
  | some items => .ok (pyDictUpdate d items)

/-! ## Target resolver: `GrrArtifactCollector._GetClientId` -/

/-- One element of `grr_api.SearchClients(host)`: the fields the resolver
reads (`client.client_id`, `client.data.os_info.fqdn`,
`client.data.last_seen_at`). -/
structure SearchClient where
  client_id : String
  fqdn : String
  last_seen_at : Nat
  deriving DecidableEq

/-- `[0-9a-f]` under `re.IGNORECASE`. -/
def isHexDigit (c : Char) : Bool :=
  (('0' ≤ c && c ≤ '9') || ('a' ≤ c && c ≤ 'f') || ('A' ≤ c && c ≤ 'F'))

/-- Body of the pattern `c\.[0-9a-f]{16}` with `re.IGNORECASE`. -/
def clientIdCore : List Char → Bool
  | c :: dot :: rest =>
      (c == 'c' || c == 'C') && dot == '.' && rest.length == 16 &&
        rest.all isHexDigit
  | _ => false

/-- `re.compile(r'^c\.[0-9a-f]{16}$', re.IGNORECASE).match(host)`:
`$` also matches just before one trailing newline. -/
def matchesClientIdPattern (s : String) : Bool :=
  clientIdCore s.toList ||
    (s.toList.getLast? == some '\n' && clientIdCore s.toList.dropLast)

/-- The fuzzy filter of `_GetClientId`:
`host.lower() in client_fqdn.lower()`. -/
def fqdnMatches (host : String) (c : SearchClient) : Bool :=
  pyIn (pyLower host) (pyLower c.fqdn)

/-- The `result` dict built by `_GetClientId`:
`result[client_id] = client_last_seen_at` for every matching search result. -/
def buildResult (host : String) (search : List SearchClient) :
    List (String × Nat) :=
  search.foldl
    (fun d c => if fqdnMatches host c then dictInsert d c.client_id c.last_seen_at else d)
    []

/-- The comparison realised by `sorted(result, key=result.get, reverse=True)`:
descending by last-seen value; Python sort is stable, so ties keep dict
(insertion) order. -/
def clientLe (a b : String × Nat) : Bool := decide (b.2 ≤ a.2)

/-- Outcome of `_GetClientId`: whether `SearchClients` was called, and the
returned client id or the raised exception. -/
structure ResolveTrace where
  searched : Bool
  result : Except PyErr String

/-- `GrrArtifactCollector._GetClientId` (collectors.py:205-244): return the
host unchanged when it matches the canonical pattern; otherwise search, filter
by fqdn substring, raise `RuntimeError` when nothing matched, else take the
head of the keys sorted descending by last-seen timestamp. -/
def getClientId (host : String) (search : List SearchClient) : ResolveTrace :=
  if matchesClientIdPattern host then
    { searched := false, result := .ok host }
  else
    let result := buildResult host search
    if result = [] then
      { searched := true, result := .error .resolutionError }
    else
      { searched := true,
        result := .ok (((result.mergeSort clientLe).map (fun p => p.1)).headD "") }

/-- First key attaining the maximum value, scanning left to right: the
deterministic tie-break realised by a stable descending sort. -/
def firstArgMax : List (String × Nat) → Option (String × Nat)
  | [] => none
  | p :: rest =>
      match firstArgMax rest with
      | none => some p
      | some q => if p.2 < q.2 then some q else some p

/-! ## Approval gate: `GrrArtifactCollector._GetClient` (collectors.py:246-274)
and the identical protocol in `GrrHuntCollector.Collect` (collectors.py:102-123).
The privileged probe (`client.ListFlows()` resp.
`hunt.GetFilesArchive().WriteToFile(...)`) is abstracted as a sequence of
observed outcomes, `true` meaning it raised `AccessForbiddenError`. -/

def CHECK_APPROVAL_INTERVAL_SEC : Nat := 10

inductive GateResult where
  | granted
  | approvalError
  | stillWaiting
  deriving DecidableEq

/-- Observable effects of one run of the approval gate: its outcome, how many
`CreateApproval` requests it issued, how many probes it performed, and the
sleeps (durations) it made between retries. -/
structure GateTrace where
  result : GateResult
  approvalRequests : Nat
  probes : Nat
  sleeps : List Nat
  deriving DecidableEq

/-- The retry loop after `CreateApproval`: probe; on success break; on
`AccessForbiddenError` sleep the fixed interval and retry.  `stillWaiting`
means the (finite) observed outcome sequence ended with the loop still
blocked. -/
def approvalLoop : List Bool → GateResult × Nat × List Nat
  | [] => (.stillWaiting, 0, [])
  | denied :: rest =>
      if denied then
        let (r, n, s) := approvalLoop rest
        (r, n + 1, CHECK_APPROVAL_INTERVAL_SEC :: s)
      else (.granted, 1, [])

/-- The approval gate: attempt the privileged operation once
(`firstDenied` is whether it raised `AccessForbiddenError`); when denied,
raise `ValueError` if no approvers were supplied, else issue a single
`CreateApproval` and enter the retry loop over the remaining probe
outcomes. -/
def approvalGate (approvers : List String) (firstDenied : Bool)
    (rest : List Bool) : GateTrace :=
  if firstDenied then
    if approvers = [] then
      { result := .approvalError, approvalRequests := 0, probes := 1, sleeps := [] }
    else
      let (r, n, s) := approvalLoop rest
      { result := r, approvalRequests := 1, probes := 1 + n, sleeps := s }
  else
    { result := .granted, approvalRequests := 0, probes := 1, sleeps := [] }

/-! ## Flow polling: `GrrArtifactCollector.Collect` (collectors.py:315-326) -/

def CHECK_FLOW_INTERVAL_SEC : Nat := 10

/-- The flow state as compared against `flows_pb2.FlowContext`:
`runningS` stands for any state that is neither `ERROR` nor `TERMINATED`. -/
inductive FState where
  | errorS
  | terminatedS
  | runningS
  deriving DecidableEq

/-- One observed `self.client.Flow(flow_id).Get().data`: the state and
`status.context.backtrace`. -/
structure FlowStatus where
  state : FState
  backtrace : String
  deriving DecidableEq

/-- The polling loop: fetch the status; on `ERROR` raise `RuntimeError`
(`flowExecutionError`) with the backtrace; on `TERMINATED` break; otherwise
sleep and poll again.  Returns the outcome (`none` meaning the finite
observed status sequence ended with the loop still waiting) together with the
number of status fetches performed. -/
def pollFlow : List FlowStatus → Option (Except PyErr Unit) × Nat
  | [] => (none, 0)
  | st :: rest =>
      match st.state with
      | .errorS => (some (.error (.flowExecutionError st.backtrace)), 1)
      | .terminatedS => (some (.ok ()), 1)
      | .runningS =>
          let (o, n) := pollFlow rest
          (o, n + 1)

/-! ## Archive download guard: `GrrArtifactCollector._DownloadFiles`
(collectors.py:339-358).  The filesystem is the list of existing paths; the
remote archive's contents are a parameter. -/

/-- Observable effects of one `_DownloadFiles` call. -/
structure DownloadTrace where
  fetched : Bool
  extracted : Bool
  removed : Bool
  ret : Option String
  deriving DecidableEq

/-- `_DownloadFiles(flow_id)`: skip (returning `None`) when the expected
archive file already exists; otherwise fetch the archive, extract everything
into the output path, remove the archive and return its path. -/
def downloadFiles (fs : List String) (output_path flow_id : String)
    (archiveContents : List String) : DownloadTrace × List String :=
  let output_file_path := pyJoin output_path (flow_id ++ ".zip")
  if output_file_path ∈ fs then
    ({ fetched := false, extracted := false, removed := false, ret := none }, fs)
  else
    let fs1 := output_file_path :: fs
    let fs2 := archiveContents.map (pyJoin output_path) ++ fs1
    let fs3 := fs2.erase output_file_path
    ({ fetched := true, extracted := true, removed := true,
       ret := some output_file_path }, fs3)

/-! ## Hunt archive extraction: `GrrHuntCollector.Collect`
(collectors.py:125-147).  The remote lookup
`self.grr_api.Client(client_id).Get().data.os_info.fqdn` is the parameter
`grrName`; `members` is the set of member names present in the archive
(`archive.extract` raises `KeyError`, caught and logged, for any other
name). -/

/-- One `zipfile` entry: its name in the archive and its contents
(`archive.read(f)`). -/
structure ZipEntry where
  filename : String
  contents : String
  deriving DecidableEq

/-- State threaded through the per-entry loop: directories created so far
(under the fresh `tempfile.mkdtemp()` output path), the `collection_paths`
dict, and the successful `archive.extract` calls as
(member name, destination dir). -/
structure HuntState where
  created : List String
  collection_paths : List (String × String)
  extracted : List (String × String)
  deriving DecidableEq

/-- `f.filename.split('/')[1]` as a total function (the value the loop reads
for a well-formed entry name). -/
def secondSegment (e : ZipEntry) : String := (pySplit e.filename '/').getD 1 ""

/-- `items[0].filename.split('/')[0]` as a total function. -/
def topSegment (e : ZipEntry) : String := (pySplit e.filename '/').getD 0 ""

/-- The `for f in items` loop body of `GrrHuntCollector.Collect`, given the
already-indexed `client_id = f.filename.split('/')[1]`: entries whose client
id starts with `C.` get a per-client directory (created, and recorded in
`collection_paths`, only when it does not exist yet), then
`archive.extract('<base>/hashes/<basename of contents>', client_dir)` with a
`KeyError` (member absent) caught and logged. -/
def stepEntry (grrName : String → String) (output_path base : String)
    (members : List String) (st : HuntState) (client_id contents : String) :
    HuntState :=
  if pyStartsWith client_id "C." then
    let client_name := grrName client_id
    let client_dir := pyJoin output_path client_id
    let st1 :=
      if client_dir ∈ st.created then st
      else { st with
             created := client_dir :: st.created,
             collection_paths := st.collection_paths ++ [(client_dir, client_name)] }
    let location := pyBasename contents
    let member := base ++ "/hashes/" ++ location
    if member ∈ members then
      { st1 with extracted := st1.extracted ++ [(member, client_dir)] }
    else st1
  else st

/-- The `for f in items` loop: index out the client id of each entry and run
the body (`stepEntry`) on it. -/
def processEntries (grrName : String → String) (output_path base : String)
    (members : List String) :
    HuntState → List ZipEntry → Except PyErr HuntState
  | st, [] => .ok st
  | st, f :: rest =>
    match pyIndex (pySplit f.filename '/') 1 with
    | .error e => .error e
    | .ok client_id =>
        processEntries grrName output_path base members
          (stepEntry grrName output_path base members st client_id f.contents) rest

/-- The whole extraction block: `items = archive.infolist()`,
`base = items[0].filename.split('/')[0]` (an `IndexError` on an empty
archive), then the per-entry loop starting from an empty state (the output
path is a fresh temporary directory). -/
def huntExtract (grrName : String → String) (output_path : String)
    (members : List String) (entries : List ZipEntry) :
    Except PyErr HuntState :=
  match pyIndex entries 0 with
  | .error e => .error e
  | .ok first =>
    match pyIndex (pySplit first.filename '/') 0 with
    | .error e => .error e
    | .ok base =>
        processEntries grrName output_path base members
          { created := [], collection_paths := [], extracted := [] } entries

/-- `GrrHuntCollector.Collect`, download part (collectors.py:90-100, 145-147):
when the expected archive file already exists, print and return `None`;
otherwise the call proceeds and returns the `collection_paths` dict, whose
value is abstracted as the parameter `extraction`. -/
def huntCollect (fs : List String) (output_path hunt_id : String)
    (extraction : List (String × String)) : Option (List (String × String)) :=
  if pyJoin output_path (hunt_id ++ ".zip") ∈ fs then none
  else some extraction

/-! ## Orchestrator: `CollectArtifactsHelper` (collectors.py:369-416) and the
`FilesystemCollector` it joins on (collectors.py:44-65). -/

/-- `FilesystemCollector.collection_name`: the explicit name when given, else
`os.path.basename(path.rstrip('/'))`. -/
def fsCollectionName (path : String) (name : Option String) : String :=
  match name with
  | some n => n
  | none => pyBasename (pyRstripSlash path)

/-- Arguments of one `GrrArtifactCollector` unit: the host string, the search
results its `_GetClientId` would observe, its fresh temporary `output_path`
and the fqdn its `collection_name` would report. -/
structure HostArgs where
  host : String
  searchResults : List SearchClient
  output_path : String
  fqdn : String
  deriving DecidableEq

/-- Arguments of one `FilesystemCollector` unit. -/
structure FsArgs where
  path : String
  name : Option String
  deriving DecidableEq

/-- `CollectArtifactsHelper`: for every host a `GrrArtifactCollector` is
constructed (its `__init__` runs `_GetClientId` on the caller's thread, so a
resolution failure raises here) and started — but not appended to
`artifact_collectors` (collectors.py:377-388); every path's
`FilesystemCollector` is started and appended; a hunt result (the return
value of `GrrHuntCollector.Collect`, `None` or a dict, abstracted as the
`hunt` parameter) is merged with `dict.update`; finally the joined collectors
in `artifact_collectors` are merged keyed by `output_path`. -/
def collectArtifactsHelper (hosts : List HostArgs) (paths : List FsArgs)
    (hunt : Option (Option (List (String × String)))) :
    Except PyErr (List (String × String)) := do
  let _ ← hosts.foldlM
    (fun (_ : Unit) h => do
      let _ ← (getClientId h.host h.searchResults).result
      pure ())
    ()
  let artifact_collectors := paths
  let collected_artifacts : List (String × String) := []
  let collected_artifacts ←
    match hunt with
    | some r => pyDictUpdateOpt collected_artifacts r
    | none => pure collected_artifacts
  pure (pyDictUpdate collected_artifacts
    (artifact_collectors.map (fun p => (p.path, fsCollectionName p.path p.name))))

/-! ## Helper lemmas -/

theorem approvalLoop_firstSuccess :
    ∀ (k : Nat) (rest : List Bool), rest.take k = List.replicate k true →
      rest.get? k = some false →
      approvalLoop rest = (.granted, k + 1, List.replicate k CHECK_APPROVAL_INTERVAL_SEC) := by
  intro k
  induction k with
  | zero =>
      intro rest _ hget
      cases rest with
      | nil => simp at hget
      | cons b t =>
          simp only [List.get?] at hget
          cases hget
          simp [approvalLoop]
  | succ k ih =>
      intro rest htake hget
      cases rest with
      | nil => simp at hget
      | cons b t =>
          rw [List.take_succ_cons, List.replicate_succ] at htake
          obtain ⟨hb, ht⟩ := List.cons.inj htake
          subst hb
          simp only [List.get?] at hget
          have := ih t ht hget
          simp [approvalLoop, this, List.replicate_succ]

theorem pollFlow_stopsAtFirstTerminal :
    ∀ (k : Nat) (trace : List FlowStatus) (st : FlowStatus),
      (∀ i, i < k → ∃ s, trace.get? i = some s ∧ s.state = .runningS) →
      trace.get? k = some st →
      (st.state = .terminatedS → pollFlow trace = (some (.ok ()), k + 1)) ∧
      (st.state = .errorS → pollFlow trace =
        (some (.error (.flowExecutionError st.backtrace)), k + 1)) := by
  intro k
  induction k with
  | zero =>
      intro trace st _ hget
      cases trace with
      | nil => simp at hget
      | cons s0 t =>
          simp only [List.get?] at hget
          cases hget
          constructor
          · intro hs; simp [pollFlow, hs]
          · intro hs; simp [pollFlow, hs]
  | succ k ih =>
      intro trace st hrun hget
      cases trace with
      | nil => simp at hget
      | cons s0 t =>
          obtain ⟨s, hs, hstate⟩ := hrun 0 (Nat.succ_pos k)
          simp only [List.get?] at hs
          cases hs
          simp only [List.get?] at hget
          have hrun' : ∀ i, i < k → ∃ s, t.get? i = some s ∧ s.state = .runningS := by
            intro i hi
            obtain ⟨s, hs, hst⟩ := hrun (i + 1) (Nat.succ_lt_succ hi)
            exact ⟨s, hs, hst⟩
          obtain ⟨h1, h2⟩ := ih t st hrun' hget
          constructor
          · intro hs
            simp [pollFlow, hstate, h1 hs]
          · intro hs
            simp [pollFlow, hstate, h2 hs]

theorem dictInsert_ne_nil (d : List (String × α)) (k : String) (v : α) :
    dictInsert d k v ≠ [] := by
  unfold dictInsert
  by_cases h : d.any (fun p => p.1 == k)
  · cases d with
    | nil => simp at h
    | cons p t => simp [h]
  · simp [h]

theorem buildResult_aux_eq_nil (host : String) :
    ∀ (search : List SearchClient) (d : List (String × Nat)),
      search.foldl
        (fun d c => if fqdnMatches host c then dictInsert d c.client_id c.last_seen_at else d)
        d = [] ↔ (d = [] ∧ search.filter (fqdnMatches host) = []) := by
  intro search
  induction search with
  | nil => simp
  | cons c cs ih =>
      intro d
      by_cases hc : fqdnMatches host c
      · simp only [List.foldl_cons, hc, if_pos, List.filter_cons, hc]
        rw [ih]
        simp [dictInsert_ne_nil d c.client_id c.last_seen_at]
      · simp only [List.foldl_cons, hc, if_neg, List.filter_cons]
        rw [ih]
        simp [hc]

theorem buildResult_eq_nil (host : String) (search : List SearchClient) :
    buildResult host search = [] ↔ search.filter (fqdnMatches host) = [] := by
  unfold buildResult
  rw [buildResult_aux_eq_nil]
  simp

theorem clientLe_trans (a b c : String × Nat) :
    clientLe a b → clientLe b c → clientLe a c := by
  simp only [clientLe, decide_eq_true_eq]
  omega

theorem clientLe_total (a b : String × Nat) : clientLe a b || clientLe b a := by
  simp only [clientLe, Bool.or_eq_true, decide_eq_true_eq]
  omega

theorem firstArgMax_eq_none :
    ∀ (d : List (String × Nat)), firstArgMax d = none ↔ d = [] := by
  intro d
  cases d with
  | nil => simp [firstArgMax]
  | cons p rest =>
      simp only [firstArgMax]
      cases firstArgMax rest with
      | none => simp
      | some q =>
          by_cases h : p.2 < q.2 <;> simp [h]

theorem firstArgMax_mem :
    ∀ (d : List (String × Nat)) (p : String × Nat), firstArgMax d = some p → p ∈ d := by
  intro d
  induction d with
  | nil => intro p h; simp [firstArgMax] at h
  | cons x rest ih =>
      intro p h
      simp only [firstArgMax] at h
      cases hr : firstArgMax rest with
      | none => simp only [hr] at h; cases h; exact List.mem_cons_self _ _
      | some q =>
          simp only [hr] at h
          by_cases hlt : x.2 < q.2
          · rw [if_pos hlt] at h
            cases h
            exact List.mem_cons_of_mem _ (ih _ hr)
          · rw [if_neg hlt] at h
            cases h
            exact List.mem_cons_self _ _

theorem firstArgMax_isMax :
    ∀ (d : List (String × Nat)) (p : String × Nat), firstArgMax d = some p →
      ∀ q ∈ d, q.2 ≤ p.2 := by
  intro d
  induction d with
  | nil => intro p h; simp [firstArgMax] at h
  | cons x rest ih =>
      intro p h q hq
      simp only [firstArgMax] at h
      cases hr : firstArgMax rest with
      | none =>
          simp only [hr] at h
          cases h
          rw [(firstArgMax_eq_none rest).mp hr] at hq
          rcases List.mem_singleton.mp hq with rfl
          exact Nat.le_refl _
      | some m =>
          simp only [hr] at h
          rcases List.mem_cons.mp hq with rfl | hq2
          · by_cases hlt : q.2 < m.2
            · rw [if_pos hlt] at h; cases h; exact Nat.le_of_lt hlt
            · rw [if_neg hlt] at h; cases h; exact Nat.le_refl _
          · have hm := ih m hr q hq2
            by_cases hlt : x.2 < m.2
            · rw [if_pos hlt] at h; cases h; exact hm
            · rw [if_neg hlt] at h; cases h
              exact Nat.le_trans hm (Nat.le_of_not_lt hlt)

theorem headD_mergeSort_firstArgMax :
    ∀ (d : List (String × Nat)) (p : String × Nat), firstArgMax d = some p →
      (d.mergeSort clientLe).headD ("", 0) = p := by
  intro d
  induction d with
  | nil => intro p h; simp [firstArgMax] at h
  | cons x rest ih =>
      intro p h
      obtain ⟨l₁, l₂, h1, h2, h3⟩ :=
        List.mergeSort_cons clientLe_trans clientLe_total x rest
      simp only [firstArgMax] at h
      cases hr : firstArgMax rest with
      | none =>
          simp only [hr] at h
          cases h
          rw [(firstArgMax_eq_none rest).mp hr]
          simp
      | some q =>
          simp only [hr] at h
          by_cases hlt : x.2 < q.2
          · rw [if_pos hlt] at h
            cases h
            have hl₁ : l₁ ≠ [] := by
              intro hnil
              subst hnil
              simp only [List.nil_append] at h1 h2
              have hsorted := List.sorted_mergeSort clientLe_trans clientLe_total (x :: rest)
              rw [h1] at hsorted
              have hq : p ∈ l₂ := by
                rw [← h2, List.mem_mergeSort]
                exact firstArgMax_mem rest p hr
              have := (List.pairwise_cons.mp hsorted).1 p hq
              simp only [clientLe, decide_eq_true_eq] at this
              omega
            cases l₁ with
            | nil => exact absurd rfl hl₁
            | cons z t =>
                rw [h1]
                have := ih p hr
                rw [h2] at this
                simpa using this
          · rw [if_neg hlt] at h
            cases h
            have hl₁ : l₁ = [] := by
              rcases List.eq_nil_or_concat l₁ with hnil | ⟨t, z, rfl⟩
              · exact hnil
              · exfalso
                have hz : z ∈ t.concat z := by simp [List.concat_eq_append]
                have hmem : z ∈ rest := by
                  have hzz : z ∈ t.concat z ++ l₂ := by simp [List.concat_eq_append]
                  rw [← h2, List.mem_mergeSort] at hzz
                  exact hzz
                have hle : z.2 ≤ q.2 := firstArgMax_isMax rest q hr z hmem
                have := h3 z hz
                simp only [clientLe, Bool.not_eq_true', decide_eq_false_iff_not] at this
                omega
            subst hl₁
            rw [h1]
            simp

theorem headD_map_fst (l : List (String × Nat)) (h : l ≠ []) :
    (l.map (fun p => p.1)).headD "" = (l.headD ("", 0)).1 := by
  cases l with
  | nil => exact absurd rfl h
  | cons x t => simp

theorem pyJoin_inj (out : String) {a b : String} (h : pyJoin out a = pyJoin out b) :
    a = b := by
  unfold pyJoin at h
  have hd := congrArg String.data h
  simp only [String.data_append, List.append_assoc] at hd
  exact String.ext (List.append_cancel_left (List.append_cancel_left hd))

theorem pyIndex_ok_of_lt (d : α) :
    ∀ (l : List α) (i : Nat), i < l.length → pyIndex l i = .ok (l.getD i d) := by
  intro l
  induction l with
  | nil => intro i h; simp at h
  | cons x t ih =>
      intro i h
      cases i with
      | zero => simp [pyIndex, List.getD]
      | succ j =>
          have hj : j < t.length := Nat.lt_of_succ_lt_succ h
          have := ih j hj
          simpa [pyIndex, List.getD] using this

theorem pyIndex_error_of_short :
    ∀ (l : List α) (i : Nat), l.length ≤ i → pyIndex l i = .error .indexError := by
  intro l
  induction l with
  | nil => intro i _; simp [pyIndex]
  | cons x t ih =>
      intro i h
      cases i with
      | zero => simp at h
      | succ j =>
          have hj : t.length ≤ j := Nat.le_of_succ_le_succ h
          have := ih j hj
          simpa [pyIndex] using this

/-- What one loop body execution does to the state: `collection_paths` grows
by `δ` (empty, or the single fresh pair), `extracted` grows by `ξ` (empty, or
the single indirection-resolved member), and `created` grows by the keys of
`δ`. -/
theorem stepEntry_spec (grrName : String → String) (out base : String)
    (members : List String) (st : HuntState) (cid contents : String) :
    ∃ δ ξ,
      (stepEntry grrName out base members st cid contents).collection_paths =
        st.collection_paths ++ δ ∧
      (stepEntry grrName out base members st cid contents).extracted =
        st.extracted ++ ξ ∧
      (stepEntry grrName out base members st cid contents).created =
        δ.map Prod.fst ++ st.created ∧
      (δ = [] ∨ (δ = [(pyJoin out cid, grrName cid)] ∧
          pyStartsWith cid "C." = true ∧ pyJoin out cid ∉ st.created)) ∧
      (pyStartsWith cid "C." = true → pyJoin out cid ∉ st.created →
        δ = [(pyJoin out cid, grrName cid)]) ∧
      (pyStartsWith cid "C." = true →
        pyJoin out cid ∈ (stepEntry grrName out base members st cid contents).created) ∧
      (∀ p ∈ ξ, pyStartsWith cid "C." = true ∧
        p = (base ++ "/hashes/" ++ pyBasename contents, pyJoin out cid)) := by
  by_cases hC : pyStartsWith cid "C." = true
  · by_cases hin : pyJoin out cid ∈ st.created
    · by_cases hm : base ++ "/hashes/" ++ pyBasename contents ∈ members
      · refine ⟨[], [(base ++ "/hashes/" ++ pyBasename contents, pyJoin out cid)],
          ?_, ?_, ?_, Or.inl rfl, fun _ h => absurd hin h, fun _ => ?_, ?_⟩ <;>
          simp [stepEntry, hC, hin, hm]
      · refine ⟨[], [], ?_, ?_, ?_, Or.inl rfl, fun _ h => absurd hin h,
          fun _ => ?_, ?_⟩ <;> simp [stepEntry, hC, hin, hm]
    · by_cases hm : base ++ "/hashes/" ++ pyBasename contents ∈ members
      · refine ⟨[(pyJoin out cid, grrName cid)],
          [(base ++ "/hashes/" ++ pyBasename contents, pyJoin out cid)],
          ?_, ?_, ?_, Or.inr ⟨rfl, hC, hin⟩, fun _ _ => rfl, fun _ => ?_, ?_⟩ <;>
          simp [stepEntry, hC, hin, hm]
      · refine ⟨[(pyJoin out cid, grrName cid)], [],
          ?_, ?_, ?_, Or.inr ⟨rfl, hC, hin⟩, fun _ _ => rfl, fun _ => ?_, ?_⟩ <;>
          simp [stepEntry, hC, hin, hm]
  · refine ⟨[], [], ?_, ?_, ?_, Or.inl rfl, fun h _ => absurd h hC,
      fun h => absurd h hC, ?_⟩ <;> simp [stepEntry, hC]

/-- Characterization of the per-entry loop on well-formed entry names:
the loop succeeds; `collection_paths` and `extracted` only grow, by `Δ` and
`Ξ`; the created directories are exactly the initial ones plus the keys of
`Δ`; each `Δ` element is a fresh `(client dir, fqdn)` pair for some entry's
client id, each client id contributing at most (and, when fresh, exactly)
once; and every extracted member follows the `<base>/hashes/<basename of
contents>` indirection. -/
theorem processEntries_char (grrName : String → String) (out base : String)
    (members : List String) :
    ∀ (entries : List ZipEntry) (st : HuntState),
      (∀ e ∈ entries, 2 ≤ (pySplit e.filename '/').length) →
      ∃ st₂ Δ Ξ,
        processEntries grrName out base members st entries = .ok st₂ ∧
        st₂.collection_paths = st.collection_paths ++ Δ ∧
        st₂.extracted = st.extracted ++ Ξ ∧
        st₂.created.Perm (Δ.map Prod.fst ++ st.created) ∧
        (∀ p ∈ Δ, ∃ c, (∃ e ∈ entries, secondSegment e = c) ∧
            pyStartsWith c "C." = true ∧ p = (pyJoin out c, grrName c) ∧
            pyJoin out c ∉ st.created) ∧
        (Δ.map Prod.fst).Nodup ∧
        (∀ c, pyStartsWith c "C." = true → (∃ e ∈ entries, secondSegment e = c) →
            pyJoin out c ∉ st.created → pyJoin out c ∈ Δ.map Prod.fst) ∧
        (∀ p ∈ Ξ, ∃ e ∈ entries, pyStartsWith (secondSegment e) "C." = true ∧
            p = (base ++ "/hashes/" ++ pyBasename e.contents,
                 pyJoin out (secondSegment e))) := by
  intro entries
  induction entries with
  | nil =>
      intro st _
      exact ⟨st, [], [], rfl, by simp, by simp, by simp, by simp, by simp,
        by simp, by simp⟩
  | cons f rest ih =>
      intro st hwf
      have hwff : 2 ≤ (pySplit f.filename '/').length := hwf f (List.mem_cons_self _ _)
      have hidx : pyIndex (pySplit f.filename '/') 1 = .ok (secondSegment f) :=
        pyIndex_ok_of_lt "" _ 1 (Nat.lt_of_lt_of_le (by omega) hwff)
      have hwfr : ∀ e ∈ rest, 2 ≤ (pySplit e.filename '/').length :=
        fun e he => hwf e (List.mem_cons_of_mem _ he)
      obtain ⟨δ, ξ, hδp, hξe, hδc, hδcases, hδfresh, hδmem, hξshape⟩ :=
        stepEntry_spec grrName out base members st (secondSegment f) f.contents
      obtain ⟨st₂, Δ2, Ξ2, hok, hp, he, hcr, hΔ, hnd, hcov, hΞ⟩ :=
        ih (stepEntry grrName out base members st (secondSegment f) f.contents) hwfr
      have hstep : processEntries grrName out base members st (f :: rest) =
          processEntries grrName out base members
            (stepEntry grrName out base members st (secondSegment f) f.contents) rest := by
        rw [processEntries, hidx]
      have hsubc : ∀ d ∈ st.created,
          d ∈ (stepEntry grrName out base members st (secondSegment f) f.contents).created := by
        intro d hd
        rw [hδc]
        exact List.mem_append_right _ hd
      refine ⟨st₂, δ ++ Δ2, ξ ++ Ξ2, by rw [hstep]; exact hok, ?_, ?_, ?_, ?_, ?_, ?_, ?_⟩
      · rw [hp, hδp, List.append_assoc]
      · rw [he, hξe, List.append_assoc]
      · refine hcr.trans ?_
        rw [hδc, List.map_append, List.append_assoc]
        exact List.perm_append_comm_assoc _ _ _
      · intro p hpΔ
        rcases List.mem_append.mp hpΔ with hpδ | hpΔ2
        · rcases hδcases with rfl | ⟨rfl, hfC, hfnotin⟩
          · simp at hpδ
          · rcases List.mem_singleton.mp hpδ with rfl
            exact ⟨secondSegment f, ⟨f, List.mem_cons_self _ _, rfl⟩, hfC, rfl, hfnotin⟩
        · obtain ⟨c, ⟨e, heR, hseg⟩, hcs, hpe, hnotin⟩ := hΔ p hpΔ2
          exact ⟨c, ⟨e, List.mem_cons_of_mem _ heR, hseg⟩, hcs, hpe,
            fun hmem2 => hnotin (hsubc _ hmem2)⟩
      · rw [List.map_append, List.nodup_append]
        refine ⟨?_, hnd, ?_⟩
        · rcases hδcases with rfl | ⟨rfl, _, _⟩ <;> simp
        · intro a haδ haΔ2
          rcases hδcases with rfl | ⟨rfl, hfC, _⟩
          · simp at haδ
          · rcases List.mem_map.mp haδ with ⟨p, hpδ, hp1⟩
            rcases List.mem_singleton.mp hpδ with rfl
            rcases List.mem_map.mp haΔ2 with ⟨q, hqΔ2, hq1⟩
            obtain ⟨c, _, _, hqe, hqnotin⟩ := hΔ q hqΔ2
            apply hqnotin
            rw [hqe] at hq1
            simp only at hq1 hp1
            rw [hq1, ← hp1]
            exact hδmem hfC
      · intro c hcs hocc hnotin
        rw [List.map_append, List.mem_append]
        obtain ⟨e, heR, hseg⟩ := hocc
        rcases List.mem_cons.mp heR with rfl | heR2
        · left
          rw [hδfresh (hseg ▸ hcs) (hseg ▸ hnotin)]
          simp [hseg]
        · by_cases hcc : c = secondSegment f
          · left
            rw [hδfresh (hcc ▸ hcs) (hcc ▸ hnotin)]
            simp [hcc]
          · right
            refine hcov c hcs ⟨e, heR2, hseg⟩ ?_
            rw [hδc, List.mem_append]
            rintro (h1 | h2)
            · rcases hδcases with rfl | ⟨rfl, _, _⟩
              · simp at h1
              · simp only [List.map_cons, List.map_nil, List.mem_singleton] at h1
                exact hcc (pyJoin_inj out h1)
            · exact hnotin h2
      · intro p hpΞ
        rcases List.mem_append.mp hpΞ with hpξ | hpΞ2
        · obtain ⟨hfC, hpe⟩ := hξshape p hpξ
          exact ⟨f, List.mem_cons_self _ _, hfC, hpe⟩
        · obtain ⟨e, heR, hcs, hpe⟩ := hΞ p hpΞ2
          exact ⟨e, List.mem_cons_of_mem _ heR, hcs, hpe⟩

theorem pySplitChars_ne_nil (sep : Char) : ∀ (l : List Char), pySplitChars sep l ≠ [] := by
  intro l
  cases l with
  | nil => simp [pySplitChars]
  | cons c rest =>
      simp only [pySplitChars]
      rcases h : pySplitChars sep rest with _ | ⟨h1, t⟩
      · simp
      · by_cases hc : c == sep <;> simp [hc]

theorem pySplit_ne_nil (s : String) (sep : Char) : pySplit s sep ≠ [] := by
  unfold pySplit
  intro h
  exact pySplitChars_ne_nil sep s.data (List.map_eq_nil_iff.mp h)

theorem processEntries_malformed (grrName : String → String) (out base : String)
    (members : List String) :
    ∀ (entries : List ZipEntry) (st : HuntState),
      (∃ e ∈ entries, (pySplit e.filename '/').length < 2) →
      processEntries grrName out base members st entries = .error .indexError := by
  intro entries
  induction entries with
  | nil => intro st h; simp at h
  | cons f rest ih =>
      intro st h
      by_cases hf : (pySplit f.filename '/').length < 2
      · have : pyIndex (pySplit f.filename '/') 1 = .error .indexError :=
          pyIndex_error_of_short _ 1 (by omega)
        rw [processEntries, this]
      · have hwf : 2 ≤ (pySplit f.filename '/').length := by omega
        have hidx : pyIndex (pySplit f.filename '/') 1 = .ok (secondSegment f) :=
          pyIndex_ok_of_lt "" _ 1 (Nat.lt_of_lt_of_le (by omega) hwf)
        rw [processEntries, hidx]
        obtain ⟨e, he, hlen⟩ := h
        rcases List.mem_cons.mp he with rfl | he2
        · exact absurd hlen hf
        · exact ih _ ⟨e, he2, hlen⟩

theorem hostLoop_ok (hosts : List HostArgs)
    (hh : ∀ a ∈ hosts, ∃ s, (getClientId a.host a.searchResults).result = .ok s) :
    hosts.foldlM
      (fun (_ : Unit) h => do
        let _ ← (getClientId h.host h.searchResults).result
        pure ())
      () = (.ok () : Except PyErr Unit) := by
  induction hosts with
  | nil => rfl
  | cons a t ih =>
      obtain ⟨s, hs⟩ := hh a (List.mem_cons_self _ _)
      have ht : ∀ a ∈ t, ∃ s, (getClientId a.host a.searchResults).result = .ok s :=
        fun b hb => hh b (List.mem_cons_of_mem _ hb)
      simp only [List.foldlM, hs, bind, Except.bind]
      exact ih ht

/-! ## Claims -/

/-- C1: the spec requires the orchestrator's merged result to contain one
(output path → label) entry for every successfully completed unit, including
one entry per host target.  The code violates this: the `GrrArtifactCollector`
built for a host is started but never appended to `artifact_collectors`
(collectors.py:377-388), so it is neither joined nor merged.  With a single
host unit that resolves successfully and no paths or hunt, the helper returns
an empty mapping instead of one containing
`(output_path, collection_name)`. -/
theorem C1_host_results_dropped :
    collectArtifactsHelper
      [{ host := "C.0123456789abcdef", searchResults := [],
         output_path := "/tmp/unit0", fqdn := "host1.example.com" }]
      [] none = .ok [] := rfl

/-- C2: the spec requires one target's fatal failure not to prevent other
targets' units from completing and contributing.  The code violates this:
`_GetClientId` runs inside `GrrArtifactCollector.__init__` on the
orchestrator's own thread (collectors.py:194-204), so a host with no matching
search results raises `RuntimeError` out of `CollectArtifactsHelper` before
the remaining host and path units are even constructed: the whole run aborts
with the resolution error and no merged result is produced. -/
theorem C2_resolution_failure_aborts_run :
    collectArtifactsHelper
      [{ host := "lost-host", searchResults := [], output_path := "/tmp/unit0",
         fqdn := "a" },
       { host := "C.0123456789abcdef", searchResults := [],
         output_path := "/tmp/unit1", fqdn := "b" }]
      [{ path := "/data/logs", name := none }] none =
      .error .resolutionError := rfl

/-- C4: when the initial privileged probe fails with an access-denied signal,
the approval gate fails immediately with `ApprovalError` and issues no
approval-creation request if no approvers were supplied; otherwise it issues
exactly one approval-creation request and retries the probe at the fixed
10-second interval until the probe stops failing with access-denied. -/
theorem C4_approval_gate (approvers : List String) (rest : List Bool) :
    (approvers = [] →
      approvalGate approvers true rest =
        { result := .approvalError, approvalRequests := 0, probes := 1,
          sleeps := [] }) ∧
    (approvers ≠ [] →
      (approvalGate approvers true rest).approvalRequests = 1 ∧
      ∀ k, rest.take k = List.replicate k true → rest.get? k = some false →
        approvalGate approvers true rest =
          { result := .granted, approvalRequests := 1, probes := k + 2,
            sleeps := List.replicate k CHECK_APPROVAL_INTERVAL_SEC }) := by
  constructor
  · intro h
    simp [approvalGate, h]
  · intro h
    constructor
    · rcases hl : approvalLoop rest with ⟨r, n, s⟩
      simp [approvalGate, h, hl]
    · intro k htake hget
      have := approvalLoop_firstSuccess k rest htake hget
      simp only [approvalGate, if_pos, h, if_neg, this]
      simp [h]
      omega

/-- C4 witness: with no approvers the gate fails at once with no approval
request; with an approver and probe outcomes denied-denied-granted it issues
one request, sleeps once for 10 seconds, and stops probing on success. -/
theorem C4_approval_gate_witness :
    approvalGate [] true [] =
      { result := .approvalError, approvalRequests := 0, probes := 1,
        sleeps := [] } ∧
    approvalGate ["admin"] true [true, false] =
      { result := .granted, approvalRequests := 1, probes := 3,
        sleeps := [CHECK_APPROVAL_INTERVAL_SEC] } :=
  ⟨(C4_approval_gate [] []).1 rfl,
   ((C4_approval_gate ["admin"] [true, false]).2 (by simp)).2 1 rfl rfl⟩

/-- C5: the flow polling loop stops at the first observed terminal state and
never polls again afterward: for a status sequence whose first `k` entries
are non-terminal and whose entry `k` is terminal, exactly `k + 1` status
fetches happen; `terminated` yields success and `error` raises
`FlowExecutionError` carrying the remote backtrace. -/
theorem C5_poll_stops_at_first_terminal (trace : List FlowStatus) (k : Nat)
    (st : FlowStatus)
    (hrun : ∀ i, i < k → ∃ s, trace.get? i = some s ∧ s.state = .runningS)
    (hget : trace.get? k = some st) :
    (st.state = .terminatedS → pollFlow trace = (some (.ok ()), k + 1)) ∧
    (st.state = .errorS → pollFlow trace =
      (some (.error (.flowExecutionError st.backtrace)), k + 1)) :=
  pollFlow_stopsAtFirstTerminal k trace st hrun hget

/-- C5 witness: one running poll followed by a terminal `terminated` state
stops after exactly two fetches with success. -/
theorem C5_poll_witness :
    pollFlow [{ state := .runningS, backtrace := "" },
              { state := .terminatedS, backtrace := "" }] = (some (.ok ()), 2) :=
  (C5_poll_stops_at_first_terminal
    [{ state := .runningS, backtrace := "" },
     { state := .terminatedS, backtrace := "" }]
    1 { state := .terminatedS, backtrace := "" }
    (by intro i hi
        have hi0 : i = 0 := by omega
        subst hi0
        exact ⟨{ state := .runningS, backtrace := "" }, rfl, rfl⟩) rfl).1 rfl

/-- C8: archive retrieval is idempotent with respect to the expected output
file: when the expected archive file already exists in the destination,
`_DownloadFiles` performs no fetch, no extraction and no deletion, returns
`None`, leaves the filesystem unchanged — and hence so does a second
invocation. -/
theorem C8_download_idempotent (fs : List String) (out flow_id : String)
    (archiveContents : List String)
    (h : pyJoin out (flow_id ++ ".zip") ∈ fs) :
    downloadFiles fs out flow_id archiveContents =
      ({ fetched := false, extracted := false, removed := false, ret := none }, fs) ∧
    downloadFiles (downloadFiles fs out flow_id archiveContents).2 out flow_id
        archiveContents =
      ({ fetched := false, extracted := false, removed := false, ret := none }, fs) := by
  have h1 : downloadFiles fs out flow_id archiveContents =
      ({ fetched := false, extracted := false, removed := false, ret := none }, fs) := by
    simp [downloadFiles, h]
  exact ⟨h1, by rw [h1]; simp [downloadFiles, h]⟩

/-- C8 witness: with the archive file already present, both the first and
the second invocation are no-ops. -/
theorem C8_download_idempotent_witness :
    downloadFiles ["/out/F.zip"] "/out" "F" ["x"] =
      ({ fetched := false, extracted := false, removed := false, ret := none },
        ["/out/F.zip"]) ∧
    downloadFiles (downloadFiles ["/out/F.zip"] "/out" "F" ["x"]).2 "/out" "F" ["x"] =
      ({ fetched := false, extracted := false, removed := false, ret := none },
        ["/out/F.zip"]) :=
  C8_download_idempotent ["/out/F.zip"] "/out" "F" ["x"] (by decide)

/-- C9: when the expected hunt archive file already exists,
`GrrHuntCollector.Collect` returns `None` (the idempotent skip), and the
orchestrator's `collected_artifacts.update(collector.Collect())`
(collectors.py:404) is `dict.update(None)`, which raises an unhandled
`TypeError` that aborts the run instead of producing a result. -/
theorem C9_hunt_skip_update_none_type_error (fs : List String)
    (out hunt_id : String) (extraction : List (String × String))
    (hosts : List HostArgs) (paths : List FsArgs)
    (hh : ∀ a ∈ hosts, ∃ s, (getClientId a.host a.searchResults).result = .ok s)
    (hmem : pyJoin out (hunt_id ++ ".zip") ∈ fs) :
    huntCollect fs out hunt_id extraction = none ∧
    collectArtifactsHelper hosts paths
        (some (huntCollect fs out hunt_id extraction)) = .error .typeError := by
  have h1 : huntCollect fs out hunt_id extraction = none := by
    simp [huntCollect, hmem]
  refine ⟨h1, ?_⟩
  unfold collectArtifactsHelper
  rw [hostLoop_ok hosts hh, h1]
  rfl

/-- C9 witness: an already-present `/h/H.zip` makes the hunt unit return
`None` and the orchestrator raise `TypeError`. -/
theorem C9_witness :
    huntCollect ["/h/H.zip"] "/h" "H" [("a", "b")] = none ∧
    collectArtifactsHelper [] [{ path := "/data/logs", name := none }]
        (some (huntCollect ["/h/H.zip"] "/h" "H" [("a", "b")])) =
      .error .typeError :=
  C9_hunt_skip_update_none_type_error ["/h/H.zip"] "/h" "H" [("a", "b")] []
    [{ path := "/data/logs", name := none }] (by simp) (by decide)

/-- C10: an empty bulk-job archive (`items[0]`), or any entry whose filename
has fewer than two slash-separated segments (`f.filename.split('/')[1]`),
makes `GrrHuntCollector.Collect` raise an unhandled `IndexError`; only the
`KeyError` of per-entry extraction is caught. -/
theorem C10_malformed_archive_index_error (grrName : String → String)
    (out : String) (members : List String) (entries : List ZipEntry)
    (h : entries = [] ∨ ∃ e ∈ entries, (pySplit e.filename '/').length < 2) :
    huntExtract grrName out members entries = .error .indexError := by
  rcases h with rfl | ⟨e, he, hlen⟩
  · rfl
  · cases entries with
    | nil => simp at he
    | cons f rest =>
        have hidx0 : pyIndex (f :: rest) 0 = .ok f := rfl
        have hlen0 : 0 < (pySplit f.filename '/').length :=
          List.length_pos.mpr (pySplit_ne_nil f.filename '/')
        have hb : pyIndex (pySplit f.filename '/') 0 =
            .ok ((pySplit f.filename '/').getD 0 "") :=
          pyIndex_ok_of_lt "" _ 0 hlen0
        simp only [huntExtract, hidx0, hb]
        exact processEntries_malformed grrName out _ members _ _ ⟨e, he, hlen⟩

/-- C10 witness: a single entry without any slash in its name raises
`IndexError`. -/
theorem C10_witness :
    huntExtract (fun _ => "") "/out" [] [{ filename := "noslash", contents := "" }] =
      .error .indexError :=
  C10_malformed_archive_index_error (fun _ => "") "/out" []
    [{ filename := "noslash", contents := "" }]
    (Or.inr ⟨{ filename := "noslash", contents := "" }, by decide, by decide⟩)

/-- C7: host resolution fails with `ResolutionError` if and only if the set
of search results whose fully-qualified name case-insensitively contains the
query is empty; for an identifier matching the canonical pattern no search is
performed and the identifier is returned unchanged, so resolution never
fails. -/
theorem C7_resolution_error_iff_no_match (host : String)
    (search : List SearchClient) :
    (matchesClientIdPattern host = true →
      getClientId host search = { searched := false, result := .ok host }) ∧
    (matchesClientIdPattern host = false →
      ((getClientId host search).result = .error .resolutionError ↔
        search.filter (fqdnMatches host) = [])) := by
  constructor
  · intro h
    simp [getClientId, h]
  · intro h
    rw [← buildResult_eq_nil]
    by_cases hb : buildResult host search = []
    · simp [getClientId, h, hb]
    · simp [getClientId, h, hb]

/-- C7 witness: a canonical identifier resolves to itself with no search;
a free-form identifier whose only search result does not contain it fails
with `ResolutionError`, matching the empty filtered set. -/
theorem C7_witness :
    getClientId "C.0123456789abcdef" [] =
      { searched := false, result := .ok "C.0123456789abcdef" } ∧
    ((getClientId "lost-host"
        [{ client_id := "C.1", fqdn := "other", last_seen_at := 5 }]).result =
          .error .resolutionError ↔
      List.filter (fqdnMatches "lost-host")
        [{ client_id := "C.1", fqdn := "other", last_seen_at := 5 }] = []) :=
  ⟨(C7_resolution_error_iff_no_match "C.0123456789abcdef" []).1 (by decide),
   (C7_resolution_error_iff_no_match "lost-host"
      [{ client_id := "C.1", fqdn := "other", last_seen_at := 5 }]).2 (by decide)⟩

/-- C6: on a non-canonical identifier with a nonempty fuzzy-filtered result
set, resolution returns exactly the first key (in search/insertion order)
attaining the maximum last-seen timestamp — the value of `firstArgMax` — so
the selected endpoint has maximal last-seen timestamp, and on a timestamp tie
the choice is the deterministic earliest-inserted one, stable across repeated
runs on the same search-result sequence. -/
theorem C6_resolver_selects_first_max (host : String)
    (search : List SearchClient)
    (hm : matchesClientIdPattern host = false)
    (hne : buildResult host search ≠ []) :
    ∃ p, firstArgMax (buildResult host search) = some p ∧
      getClientId host search = { searched := true, result := .ok p.1 } ∧
      p ∈ buildResult host search ∧
      ∀ q ∈ buildResult host search, q.2 ≤ p.2 := by
  obtain ⟨p, hp⟩ : ∃ p, firstArgMax (buildResult host search) = some p := by
    rcases hfa : firstArgMax (buildResult host search) with _ | p
    · exact absurd ((firstArgMax_eq_none _).mp hfa) hne
    · exact ⟨p, rfl⟩
  refine ⟨p, hp, ?_, firstArgMax_mem _ p hp, firstArgMax_isMax _ p hp⟩
  have hms : (buildResult host search).mergeSort clientLe ≠ [] := by
    intro h0
    apply hne
    have hl := congrArg List.length h0
    simp only [List.length_mergeSort, List.length_nil] at hl
    exact List.eq_nil_of_length_eq_zero hl
  have hfst : (((buildResult host search).mergeSort clientLe).map
      (fun p => p.1)).headD "" = p.1 := by
    rw [headD_map_fst _ hms, headD_mergeSort_firstArgMax _ p hp]
  simp only [getClientId, hm, Bool.false_eq_true, if_false]
  rw [if_neg hne, hfst]

/-- C6 witness: two search results with tied timestamps; the first-inserted
key is selected and its timestamp is maximal. -/
theorem C6_witness :
    ∃ p, firstArgMax (buildResult "host"
        [{ client_id := "C.1", fqdn := "ahost", last_seen_at := 9 },
         { client_id := "C.2", fqdn := "bhost", last_seen_at := 9 }]) = some p ∧
      getClientId "host"
        [{ client_id := "C.1", fqdn := "ahost", last_seen_at := 9 },
         { client_id := "C.2", fqdn := "bhost", last_seen_at := 9 }] =
        { searched := true, result := .ok p.1 } ∧
      p ∈ buildResult "host"
        [{ client_id := "C.1", fqdn := "ahost", last_seen_at := 9 },
         { client_id := "C.2", fqdn := "bhost", last_seen_at := 9 }] ∧
      ∀ q ∈ buildResult "host"
        [{ client_id := "C.1", fqdn := "ahost", last_seen_at := 9 },
         { client_id := "C.2", fqdn := "bhost", last_seen_at := 9 }], q.2 ≤ p.2 :=
  C6_resolver_selects_first_max "host"
    [{ client_id := "C.1", fqdn := "ahost", last_seen_at := 9 },
     { client_id := "C.2", fqdn := "bhost", last_seen_at := 9 }]
    (by decide) (by decide)

/-- C3: for a bulk-job archive whose recognised entries (second path segment
starting with `C.`) belong to exactly two endpoint identifiers `A` and `B`,
`GrrHuntCollector.Collect` creates exactly two per-endpoint subdirectories
under the output path, records each (subdirectory → display name) pair
exactly once, and every extraction is of the member
`<top-level>/hashes/<basename>` where the basename is read from the entry's
contents (the indirection file), not from the entry's own filename. -/
theorem C3_bulk_extraction_two_clients (grrName : String → String)
    (out : String) (members : List String) (A B : String)
    (entries : List ZipEntry)
    (hA : pyStartsWith A "C." = true) (hB : pyStartsWith B "C." = true)
    (hAB : A ≠ B)
    (hwf : ∀ e ∈ entries, 2 ≤ (pySplit e.filename '/').length)
    (hseg : ∀ e ∈ entries, pyStartsWith (secondSegment e) "C." = true →
        secondSegment e = A ∨ secondSegment e = B)
    (hhA : ∃ e ∈ entries, secondSegment e = A)
    (hhB : ∃ e ∈ entries, secondSegment e = B) :
    ∃ st, huntExtract grrName out members entries = .ok st ∧
      (st.collection_paths =
          [(pyJoin out A, grrName A), (pyJoin out B, grrName B)] ∨
       st.collection_paths =
          [(pyJoin out B, grrName B), (pyJoin out A, grrName A)]) ∧
      st.created.Perm [pyJoin out A, pyJoin out B] ∧
      (∀ p ∈ st.extracted, ∃ e ∈ entries,
          pyStartsWith (secondSegment e) "C." = true ∧
          p = (topSegment (entries.headD { filename := "", contents := "" }) ++
                 "/hashes/" ++ pyBasename e.contents,
               pyJoin out (secondSegment e))) := by
  have hjAB : pyJoin out A ≠ pyJoin out B := fun h => hAB (pyJoin_inj out h)
  cases entries with
  | nil =>
      obtain ⟨e, he, _⟩ := hhA
      simp at he
  | cons e₀ tail =>
      have hidx0 : pyIndex (e₀ :: tail) 0 = .ok e₀ := rfl
      have hb : pyIndex (pySplit e₀.filename '/') 0 =
          .ok ((pySplit e₀.filename '/').getD 0 "") :=
        pyIndex_ok_of_lt "" _ 0 (List.length_pos.mpr (pySplit_ne_nil _ _))
      obtain ⟨st₂, Δ, Ξ, hok, hp, hex, hcr, hΔ, hnd, hcov, hΞ⟩ :=
        processEntries_char grrName out ((pySplit e₀.filename '/').getD 0 "")
          members (e₀ :: tail)
          { created := [], collection_paths := [], extracted := [] } hwf
      have hΔAB : ∀ p ∈ Δ, p = (pyJoin out A, grrName A) ∨
          p = (pyJoin out B, grrName B) := by
        intro p hpΔ
        obtain ⟨c, ⟨e, he, hsegc⟩, hcs, hpe, _⟩ := hΔ p hpΔ
        rcases hseg e he (hsegc ▸ hcs) with hcA | hcB
        · left; rw [hpe, ← hsegc, hcA]
        · right; rw [hpe, ← hsegc, hcB]
      have hmemA : (pyJoin out A, grrName A) ∈ Δ := by
        have hk : pyJoin out A ∈ Δ.map Prod.fst := hcov A hA hhA (by simp)
        obtain ⟨p, hpΔ, hp1⟩ := List.mem_map.mp hk
        rcases hΔAB p hpΔ with rfl | rfl
        · exact hpΔ
        · exact absurd (hp1.symm) hjAB
      have hmemB : (pyJoin out B, grrName B) ∈ Δ := by
        have hk : pyJoin out B ∈ Δ.map Prod.fst := hcov B hB hhB (by simp)
        obtain ⟨p, hpΔ, hp1⟩ := List.mem_map.mp hk
        rcases hΔAB p hpΔ with rfl | rfl
        · exact absurd hp1.symm hjAB.symm
        · exact hpΔ
      have hΔshape : Δ = [(pyJoin out A, grrName A), (pyJoin out B, grrName B)] ∨
          Δ = [(pyJoin out B, grrName B), (pyJoin out A, grrName A)] := by
        rcases Δ with _ | ⟨p, _ | ⟨q, _ | ⟨r, rest3⟩⟩⟩
        · simp at hmemA
        · rcases List.mem_singleton.mp hmemA with rfl
          rcases List.mem_singleton.mp hmemB with h
          exact absurd (congrArg Prod.fst h.symm) hjAB
        · simp only [List.map_cons, List.nodup_cons, List.mem_cons,
            List.mem_singleton, List.not_mem_nil, or_false, List.nodup_nil,
            and_true, not_or] at hnd
          rcases hΔAB p (by simp) with rfl | rfl <;>
            rcases hΔAB q (by simp [List.mem_cons]) with rfl | rfl
          · exact absurd rfl hnd.1.1
          · exact Or.inl rfl
          · exact Or.inr rfl
          · exact absurd rfl hnd.1.1
        · exfalso
          have hpm := hΔAB p (by simp)
          have hqm := hΔAB q (by simp [List.mem_cons])
          have hrm := hΔAB r (by simp [List.mem_cons])
          simp only [List.map_cons, List.nodup_cons, List.mem_cons, not_or] at hnd
          rcases hpm with rfl | rfl <;> rcases hqm with rfl | rfl <;>
            rcases hrm with rfl | rfl <;> simp_all
      refine ⟨st₂, ?_, ?_, ?_, ?_⟩
      · simp only [huntExtract, hidx0, hb]
        exact hok
      · rw [hp]
        simpa using hΔshape
      · have hcr2 : st₂.created.Perm (Δ.map Prod.fst) := by
          simpa using hcr
        refine hcr2.trans ?_
        rcases hΔshape with rfl | rfl
        · simp
        · simp only [List.map_cons, List.map_nil]
          exact List.Perm.swap _ _ _
      · intro p hpΞ
        have hpx : p ∈ Ξ := by
          rw [hex] at hpΞ
          simpa using hpΞ
        obtain ⟨e, he, hcs, hpe⟩ := hΞ p hpx
        exact ⟨e, he, hcs, by simpa [topSegment] using hpe⟩

/-- C3 witness: an archive with entries for clients `C.a` and `C.b` produces
exactly the two subdirectories with their display names and only
indirection-resolved extractions. -/
theorem C3_witness :
    ∃ st, huntExtract (fun c => "nm" ++ c) "/out"
        ["top/hashes/p1", "top/hashes/p2"]
        [{ filename := "top/C.a/f1", contents := "dir/p1" },
         { filename := "top/C.b/f2", contents := "dir/p2" }] = .ok st ∧
      (st.collection_paths =
          [(pyJoin "/out" "C.a", (fun c => "nm" ++ c) "C.a"),
           (pyJoin "/out" "C.b", (fun c => "nm" ++ c) "C.b")] ∨
       st.collection_paths =
          [(pyJoin "/out" "C.b", (fun c => "nm" ++ c) "C.b"),
           (pyJoin "/out" "C.a", (fun c => "nm" ++ c) "C.a")]) ∧
      st.created.Perm [pyJoin "/out" "C.a", pyJoin "/out" "C.b"] ∧
      (∀ p ∈ st.extracted, ∃ e ∈
          [({ filename := "top/C.a/f1", contents := "dir/p1" } : ZipEntry),
           { filename := "top/C.b/f2", contents := "dir/p2" }],
          pyStartsWith (secondSegment e) "C." = true ∧
          p = (topSegment
                 ([({ filename := "top/C.a/f1", contents := "dir/p1" } : ZipEntry),
                   { filename := "top/C.b/f2", contents := "dir/p2" }].headD
                    { filename := "", contents := "" }) ++
                 "/hashes/" ++ pyBasename e.contents,
               pyJoin "/out" (secondSegment e))) :=
  C3_bulk_extraction_two_clients (fun c => "nm" ++ c) "/out"
    ["top/hashes/p1", "top/hashes/p2"] "C.a" "C.b"
    [{ filename := "top/C.a/f1", contents := "dir/p1" },
     { filename := "top/C.b/f2", contents := "dir/p2" }]
    (by decide) (by decide) (by decide) (by decide) (by decide)
    (by decide) (by decide)

end Collectors
